import Mathlib

/- Verification of the live-audio pipeline of the SHORTZ Studio application:
   the base64 transport helpers `encode`/`decode` and the PCM codec
   `decodeAudioData` (services/geminiService.ts), and the gapless playback
   scheduler and session state of the `LiveAnchor` component
   (components/LiveAnchor.tsx).

   Modelling conventions: JS numbers carrying audio samples are embedded as
   rationals; 16-bit stores go through the explicit ToInt16 wraparound
   (truncate toward zero, reduce mod 2^16); byte strings are lists of
   naturals below 256; the runtime errors of the host environment
   (RangeError from an odd-length Int16Array view, NotSupportedError from a
   zero-length createBuffer, InvalidStateError from stopping a never-started
   source) are surfaced through Except. -/

namespace Shortz

/-! ### Base64 transport alphabet (the btoa/atob pair behind encode/decode) -/

def b64chars : List Char :=
  "ABCDEFGHIJKLMNOPQRSTUVWXYZabcdefghijklmnopqrstuvwxyz0123456789+/".toList

def b64char (n : Nat) : Char := b64chars.getD n '='

def b64index (c : Char) : Nat := b64chars.indexOf c

/-- Base64 encoding of a byte list, as performed by the browser btoa on the
binary string built by `encode` in services/geminiService.ts. -/
def btoa : List Nat → List Char
  | [] => []
  | [b1] => [b64char (b1 / 4), b64char (b1 % 4 * 16), '=', '=']
  | [b1, b2] =>
      [b64char (b1 / 4), b64char (b1 % 4 * 16 + b2 / 16), b64char (b2 % 16 * 4), '=']
  | b1 :: b2 :: b3 :: rest =>
      b64char (b1 / 4) :: b64char (b1 % 4 * 16 + b2 / 16) ::
      b64char (b2 % 16 * 4 + b3 / 64) :: b64char (b3 % 64) :: btoa rest

/-- Base64 decoding to a byte list, as performed by the browser atob inside
`decode` in services/geminiService.ts. -/
def atob : List Char → List Nat
  | c1 :: c2 :: c3 :: c4 :: rest =>
      if c3 = '=' then [b64index c1 * 4 + b64index c2 / 16]
      else if c4 = '=' then
        [b64index c1 * 4 + b64index c2 / 16,
         b64index c2 % 16 * 16 + b64index c3 / 4]
      else
        (b64index c1 * 4 + b64index c2 / 16) ::
        (b64index c2 % 16 * 16 + b64index c3 / 4) ::
        (b64index c3 % 4 * 64 + b64index c4) :: atob rest
  | _ => []

/-- Source `encode`: turns each byte into a character of a binary string and
applies btoa; on byte lists this is exactly btoa. -/
def encode (bytes : List Nat) : List Char := btoa bytes

theorem b64_rt : ∀ n, n < 64 → b64index (b64char n) = n := by decide

theorem b64_ne_pad : ∀ n, n < 64 → b64char n ≠ '=' := by decide

theorem atob_pad2 (n1 n2 : Nat) (h1 : n1 < 64) (h2 : n2 < 64) :
    atob [b64char n1, b64char n2, '=', '='] = [n1 * 4 + n2 / 16] := by
  simp [atob, b64_rt _ h1, b64_rt _ h2]

theorem atob_pad1 (n1 n2 n3 : Nat) (h1 : n1 < 64) (h2 : n2 < 64) (h3 : n3 < 64) :
    atob [b64char n1, b64char n2, b64char n3, '=']
      = [n1 * 4 + n2 / 16, n2 % 16 * 16 + n3 / 4] := by
  simp [atob, b64_ne_pad _ h3, b64_rt _ h1, b64_rt _ h2, b64_rt _ h3]

theorem atob_chunk (n1 n2 n3 n4 : Nat) (rest : List Char)
    (h1 : n1 < 64) (h2 : n2 < 64) (h3 : n3 < 64) (h4 : n4 < 64) :
    atob (b64char n1 :: b64char n2 :: b64char n3 :: b64char n4 :: rest)
      = (n1 * 4 + n2 / 16) :: (n2 % 16 * 16 + n3 / 4) ::
        (n3 % 4 * 64 + n4) :: atob rest := by
  simp [atob, b64_ne_pad _ h3, b64_ne_pad _ h4,
    b64_rt _ h1, b64_rt _ h2, b64_rt _ h3, b64_rt _ h4]

theorem atob_btoa : ∀ (bs : List Nat), (∀ b ∈ bs, b < 256) → atob (btoa bs) = bs
  | [], _ => by simp [btoa, atob]
  | [b1], h => by
      have hb1 : b1 < 256 := h b1 (by simp)
      simp only [btoa]
      rw [atob_pad2 _ _ (by omega) (by omega)]
      simp only [List.cons.injEq, and_true]
      omega
  | [b1, b2], h => by
      have hb1 : b1 < 256 := h b1 (by simp)
      have hb2 : b2 < 256 := h b2 (by simp)
      simp only [btoa]
      rw [atob_pad1 _ _ _ (by omega) (by omega) (by omega)]
      simp only [List.cons.injEq, and_true]
      omega
  | b1 :: b2 :: b3 :: rest, h => by
      have hb1 : b1 < 256 := h b1 (by simp)
      have hb2 : b2 < 256 := h b2 (by simp)
      have hb3 : b3 < 256 := h b3 (by simp)
      have ih := atob_btoa rest (fun b hb => h b (by simp [hb]))
      simp only [btoa]
      rw [atob_chunk _ _ _ _ _ (by omega) (by omega) (by omega) (by omega), ih]
      simp only [List.cons.injEq, and_true]
      omega
termination_by bs => bs.length

/-! ### Outbound PCM encoding (processor.onaudioprocess in LiveAnchor.tsx) -/

/-- JS truncation toward zero, the implicit float-to-integer step of storing
`input[i] * 32768` into an Int16Array element. -/
def truncQ (x : ℚ) : Int := if 0 ≤ x then Int.floor x else -Int.floor (-x)

/-- ToInt16 storage: the unsigned 16-bit word actually held in the typed
array, i.e. the truncated value reduced mod 2^16 (two's complement). -/
def wrap16 (t : Int) : Nat := (t % 65536).toNat

/-- Signed read-back of a stored 16-bit word, how an Int16Array element
compares to the unsigned bit pattern. -/
def asInt16 (w : Nat) : Int := if w % 65536 < 32768 then (w % 65536 : Int) else (w % 65536 : Int) - 65536

/-- Source line `int16[i] = input[i] * 32768` of processor.onaudioprocess:
the stored 16-bit word for one captured sample. -/
def floatTo16Sample (x : ℚ) : Nat := wrap16 (truncQ (x * 32768))

/-- The Int16Array built by the capture callback over a whole input buffer. -/
def int16ArrayOfInput (input : List ℚ) : List Nat := input.map floatTo16Sample

/-- Source expression `new Uint8Array(int16.buffer)`: the little-endian byte
view of the 16-bit words (low byte first). -/
def bytesOfInt16 (ws : List Nat) : List Nat := ws.flatMap fun w => [w % 256, w / 256]

/-- The outbound chunk sent by processor.onaudioprocess:
`encode(new Uint8Array(int16.buffer))`. -/
def encodeChunk (input : List ℚ) : List Char := encode (bytesOfInt16 (int16ArrayOfInput input))

/-! ### Inbound decoding (decodeAudioData in services/geminiService.ts) -/

/-- Errors raised by the host environment during decode or teardown. -/
inductive JsError where
  | rangeError
  | notSupportedError
  | invalidStateError
deriving DecidableEq, Repr

/-- A Uint8Array: a view (byteOffset, byteLength) over an underlying
ArrayBuffer, here the buffer is the full byte list. -/
structure Uint8View where
  buffer : List Nat
  byteOffset : Nat
  byteLength : Nat
deriving DecidableEq, Repr

/-- Source `decode`: atob to a byte array; the returned Uint8Array spans its
whole freshly allocated buffer. -/
def decode (s : List Char) : Uint8View := ⟨atob s, 0, (atob s).length⟩

/-- The produced AudioBuffer: per-channel lists of float samples. -/
structure AudioBuffer where
  numChannels : Nat
  frameCount : Nat
  sampleRate : Nat
  channels : List (List ℚ)
deriving DecidableEq, Repr

/-- Source expression `new Int16Array(data.buffer)`: consecutive byte pairs
read little-endian as signed 16-bit integers. -/
def toInt16Pairs : List Nat → List Int
  | lo :: hi :: rest => asInt16 (lo + 256 * hi) :: toInt16Pairs rest
  | _ => []

/-- Source `decodeAudioData`. Host-environment behaviors embedded here:
`new Int16Array(data.buffer)` views the WHOLE underlying buffer (the view's
byteOffset and byteLength are ignored) and raises a RangeError when the
buffer's byte length is odd; `ctx.createBuffer` receives the possibly
fractional `dataInt16.length / numChannels` coerced to an integer by
truncation and raises a NotSupportedError when the channel count is 0 or
above 32 or the truncated frame count is 0; loop iterations beyond the
truncated frame count write out of the channel's Float32Array bounds and
are ignored, so each channel ends with exactly the truncated number of
frames. -/
def decodeAudioData (data : Uint8View) (sampleRate numChannels : Nat) :
    Except JsError AudioBuffer :=
  if data.buffer.length % 2 ≠ 0 then .error .rangeError
  else
    let dataInt16 := toInt16Pairs data.buffer
    let frameCount := dataInt16.length / numChannels
    if numChannels = 0 ∨ 32 < numChannels ∨ frameCount = 0 then .error .notSupportedError
    else .ok ⟨numChannels, frameCount, sampleRate,
      (List.range numChannels).map fun c =>
        (List.range frameCount).map fun i =>
          ((dataInt16.getD (i * numChannels + c) 0 : Int) : ℚ) / 32768⟩

/-! ### Basic facts about the PCM layer -/

theorem floatTo16Sample_lt (x : ℚ) : floatTo16Sample x < 65536 := by
  simp only [floatTo16Sample, wrap16]
  omega

theorem bytesOfInt16_length : ∀ ws : List Nat, (bytesOfInt16 ws).length = 2 * ws.length
  | [] => rfl
  | w :: rest => by
      have := bytesOfInt16_length rest
      simp only [bytesOfInt16, List.flatMap_cons, List.length_append, List.length_cons,
        List.length_nil] at this ⊢
      omega

theorem bytesOfInt16_lt (ws : List Nat) (h : ∀ w ∈ ws, w < 65536) :
    ∀ b ∈ bytesOfInt16 ws, b < 256 := by
  intro b hb
  simp only [bytesOfInt16, List.mem_flatMap] at hb
  obtain ⟨w, hw, hbw⟩ := hb
  have := h w hw
  simp only [List.mem_cons, List.not_mem_nil, or_false] at hbw
  rcases hbw with h1 | h1 <;> omega

theorem toInt16Pairs_bytesOfInt16 (ws : List Nat) (h : ∀ w ∈ ws, w < 65536) :
    toInt16Pairs (bytesOfInt16 ws) = ws.map asInt16 := by
  induction ws with
  | nil => simp [bytesOfInt16, toInt16Pairs]
  | cons w rest ih =>
      have hw : w < 65536 := h w (by simp)
      have hrw : w % 256 + 256 * (w / 256) = w := by omega
      have ih2 := ih fun a ha => h a (by simp [ha])
      simp only [bytesOfInt16, List.flatMap_cons, List.cons_append, List.nil_append,
        toInt16Pairs, List.map_cons]
      rw [hrw]
      congr 1

theorem toInt16Pairs_length : ∀ l : List Nat, (toInt16Pairs l).length = l.length / 2
  | [] => by simp [toInt16Pairs]
  | [_] => by simp [toInt16Pairs]
  | _ :: _ :: rest => by
      simp only [toInt16Pairs, List.length_cons]
      rw [toInt16Pairs_length rest]
      omega

/-- Reading back a stored word recovers the signed value when it fits in
the 16-bit signed range. -/
theorem asInt16_wrap16 (t : Int) (h1 : -32768 ≤ t) (h2 : t ≤ 32767) :
    asInt16 (wrap16 t) = t := by
  simp only [asInt16, wrap16]
  omega

/-- Truncation toward zero moves a rational by less than one. -/
theorem truncQ_close (y : ℚ) : |y - truncQ y| < 1 := by
  rw [abs_lt]
  simp only [truncQ]
  split
  · have h1 := Int.floor_le y
    have h2 := Int.lt_floor_add_one y
    constructor <;> [linarith; linarith [h1, h2]]
  · have h1 := Int.floor_le (-y)
    have h2 := Int.lt_floor_add_one (-y)
    push_cast
    constructor <;> linarith

/-- Range of the truncated scaled sample for inputs in the interval
from -1 inclusive to 1 exclusive. -/
theorem truncQ_range (x : ℚ) (h1 : -1 ≤ x) (h2 : x < 1) :
    -32768 ≤ truncQ (x * 32768) ∧ truncQ (x * 32768) ≤ 32767 := by
  simp only [truncQ]
  split
  · rename_i hy
    have hlow : (0:ℤ) ≤ Int.floor (x * 32768) := Int.floor_nonneg.mpr hy
    have hup : Int.floor (x * 32768) < 32768 := by
      rw [Int.floor_lt]
      push_cast
      nlinarith
    omega
  · rename_i hy
    push_neg at hy
    have hub : Int.floor (-(x * 32768)) ≤ 32768 := by
      have : -(x * 32768) ≤ ((32768:ℤ):ℚ) := by push_cast; nlinarith
      calc Int.floor (-(x * 32768)) ≤ Int.floor ((32768:ℤ):ℚ) := Int.floor_le_floor this
        _ = 32768 := Int.floor_intCast _
    have hpos : (0:ℤ) ≤ Int.floor (-(x * 32768)) := by
      apply Int.floor_nonneg.mpr
      linarith
    omega

/-! ### Playback scheduler and session state (LiveAnchor.tsx) -/

/-- A MediaStream track; stop releases it. -/
structure Track where
  stopped : Bool
deriving DecidableEq, Repr

/-- The capture MediaStream held in streamRef. -/
structure CaptureStream where
  tracks : List Track
deriving DecidableEq, Repr

/-- An AudioBufferSourceNode registered in sourcesRef: its scheduled start
time, its buffer duration, and whether start() has been called (calling
stop() on a source whose start() was never called raises an
InvalidStateError). -/
structure Source where
  startTime : ℚ
  duration : ℚ
  started : Bool
deriving DecidableEq, Repr

/-- The component state of LiveAnchor: the isActive and isConnecting React
flags, nextStartTimeRef, sourcesRef, and streamRef. -/
structure AnchorState where
  isActive : Bool
  isConnecting : Bool
  nextStartTime : ℚ
  sources : List Source
  stream : Option CaptureStream
deriving DecidableEq, Repr

/-- Initial component state: flags false, nextStartTimeRef 0, sourcesRef
empty, streamRef null. -/
def initState : AnchorState := ⟨false, false, 0, [], none⟩

/-- Every registered source has been started; true in every reachable state
because source.start is always called before sourcesRef.add. -/
def sourcesStarted (s : AnchorState) : Prop := ∀ src ∈ s.sources, src.started = true

instance (s : AnchorState) : Decidable (sourcesStarted s) :=
  List.decidableBAll _ s.sources

/-- Effect of `streamRef.current?.getTracks().forEach(t => t.stop())`. -/
def stopTracks (st : CaptureStream) : CaptureStream := ⟨st.tracks.map fun _ => ⟨true⟩⟩

/-- Source `stopAnchor`: clears isActive, stops the capture tracks, stops
every registered source and empties sourcesRef. It does NOT touch
nextStartTimeRef, streamRef (only the tracks are stopped) or isConnecting.
Stopping a never-started source would raise an InvalidStateError. -/
def stopAnchor (s : AnchorState) : Except JsError AnchorState :=
  if s.sources.all (·.started) then
    .ok { s with isActive := false, stream := s.stream.map stopTracks, sources := [] }
  else .error .invalidStateError

/-- The onclose callback simply invokes stopAnchor. -/
def oncloseHandler (s : AnchorState) : Except JsError AnchorState := stopAnchor s

/-- The onerror callback simply invokes stopAnchor. -/
def onerrorHandler (s : AnchorState) : Except JsError AnchorState := stopAnchor s

/-- The audio branch of the onmessage callback: clamp the cursor to the
output clock, start the source at the clamped time, advance the cursor by
the buffer duration, and register the source. Returns the assigned start
time together with the new state. -/
def scheduleBuffer (s : AnchorState) (now dur : ℚ) : ℚ × AnchorState :=
  let t := max s.nextStartTime now
  (t, { s with nextStartTime := t + dur, sources := s.sources ++ [⟨t, dur, true⟩] })

/-- An inbound live-server message, reduced to what the handler inspects:
the optional inline audio payload (already decoded to its duration) and the
serverContent.interrupted flag. -/
structure ServerMessage where
  audioDur : Option ℚ
  interrupted : Bool

/-- Source onmessage: first schedule the inline audio if present, then, if
the interrupted flag is set, stop and clear every registered source and
reset nextStartTimeRef to 0. -/
def onmessage (s : AnchorState) (now : ℚ) (msg : ServerMessage) :
    Except JsError AnchorState :=
  let s1 := match msg.audioDur with
    | some d => (scheduleBuffer s now d).2
    | none => s
  if msg.interrupted then
    if s1.sources.all (·.started) then
      .ok { s1 with sources := [], nextStartTime := 0 }
    else .error .invalidStateError
  else .ok s1

/-- The onended callback of a source removes it from sourcesRef. -/
def sourceEnded (s : AnchorState) (src : Source) : AnchorState :=
  { s with sources := s.sources.erase src }

/-- Pressing the start button: setIsConnecting(true) at the top of
startAnchor. -/
def startPress (s : AnchorState) : AnchorState := { s with isConnecting := true }

/-- The catch branch of startAnchor (e.g. capture permission denied):
setIsConnecting(false). -/
def permissionDenied (s : AnchorState) : AnchorState := { s with isConnecting := false }

/-- Successful getUserMedia: streamRef.current receives the live stream. -/
def gotStream (s : AnchorState) (tracks : List Track) : AnchorState :=
  { s with stream := some ⟨tracks⟩ }

/-- The onopen callback: setIsConnecting(false); setIsActive(true). -/
def onopen (s : AnchorState) : AnchorState :=
  { s with isConnecting := false, isActive := true }

/-- The session phases of the specified state machine, read off the two
React flags. -/
inductive Phase where
  | idle
  | connecting
  | active
deriving DecidableEq, Repr

/-- Phase read-out: isActive means ACTIVE, otherwise isConnecting means
CONNECTING (the start button is disabled there), otherwise IDLE. -/
def phase (s : AnchorState) : Phase :=
  if s.isActive then .active else if s.isConnecting then .connecting else .idle

/-- States reachable through the component's event handlers from the
initial mount. -/
inductive Reachable : AnchorState → Prop
  | init : Reachable initState
  | press {s} : Reachable s → s.isActive = false → Reachable (startPress s)
  | denied {s} : Reachable s → Reachable (permissionDenied s)
  | media {s} (tracks : List Track) : Reachable s → Reachable (gotStream s tracks)
  | opened {s} : Reachable s → Reachable (onopen s)
  | message {s s' now msg} : Reachable s → onmessage s now msg = .ok s' → Reachable s'
  | ended {s} (src : Source) : Reachable s → Reachable (sourceEnded s src)
  | stopped {s s'} : Reachable s → stopAnchor s = .ok s' → Reachable s'

theorem scheduleBuffer_sourcesStarted {s : AnchorState} (h : sourcesStarted s)
    (now dur : ℚ) : sourcesStarted (scheduleBuffer s now dur).2 := by
  intro src hsrc
  simp only [scheduleBuffer, List.mem_append, List.mem_singleton] at hsrc
  rcases hsrc with h1 | h1
  · exact h src h1
  · rw [h1]

theorem onmessage_sourcesStarted {s s' : AnchorState} {now : ℚ} {msg : ServerMessage}
    (h : sourcesStarted s) (he : onmessage s now msg = .ok s') : sourcesStarted s' := by
  have hs1 : sourcesStarted (match msg.audioDur with
      | some d => (scheduleBuffer s now d).2
      | none => s) := by
    cases msg.audioDur with
    | some d => exact scheduleBuffer_sourcesStarted h now d
    | none => exact h
  simp only [onmessage] at he
  split at he
  · split at he
    · cases he
      intro src hsrc
      simp at hsrc
    · cases he
  · cases he
    exact hs1

theorem reachable_sourcesStarted {s : AnchorState} (h : Reachable s) :
    sourcesStarted s := by
  induction h with
  | init => intro src hsrc; simp [initState] at hsrc
  | press _ _ ih => exact ih
  | denied _ ih => exact ih
  | media _ _ ih => exact ih
  | opened _ ih => exact ih
  | message _ he ih => exact onmessage_sourcesStarted ih he
  | ended src _ ih => intro a ha; exact ih a (List.mem_of_mem_erase ha)
  | stopped _ he ih =>
      simp only [stopAnchor] at he
      split at he
      · cases he
        intro a ha
        simp at ha
      · cases he

/-- When every registered source has started, stopAnchor succeeds and its
result is the record update the source performs. -/
theorem stopAnchor_ok {s : AnchorState} (h : sourcesStarted s) :
    stopAnchor s
      = .ok { s with isActive := false, stream := s.stream.map stopTracks, sources := [] } := by
  simp only [stopAnchor, if_pos (List.all_eq_true.mpr h)]

/-- Iterated arrival of audio messages: each pair is the output clock's
current time at arrival and the decoded buffer's duration; returns the
assigned start times in order together with the final state. -/
def scheduleAll (s : AnchorState) : List (ℚ × ℚ) → List ℚ × AnchorState
  | [] => ([], s)
  | (now, d) :: rest =>
      let p := scheduleBuffer s now d
      let q := scheduleAll p.2 rest
      (p.1 :: q.1, q.2)

/-- C2: for buffers scheduled consecutively while the output clock never
overtakes the cursor, the i-th start time is the cursor's initial offset
plus the sum of the previous durations, and the final cursor is the initial
offset plus the total duration. -/
theorem c2_gapless_scheduling (s : AnchorState) (pairs : List (ℚ × ℚ))
    (h : ∀ i (hi : i < pairs.length),
      (pairs[i]).1 ≤ s.nextStartTime + ((pairs.take i).map Prod.snd).sum) :
    (scheduleAll s pairs).1
      = (List.range pairs.length).map
          (fun i => s.nextStartTime + ((pairs.take i).map Prod.snd).sum)
    ∧ (scheduleAll s pairs).2.nextStartTime
      = s.nextStartTime + (pairs.map Prod.snd).sum := by
  induction pairs generalizing s with
  | nil => simp [scheduleAll]
  | cons p rest ih =>
      obtain ⟨now, d⟩ := p
      have h0 : now ≤ s.nextStartTime := by simpa using h 0 (by simp)
      have hstart : (scheduleBuffer s now d).1 = s.nextStartTime := by
        simp [scheduleBuffer, max_eq_left h0]
      have hs' : (scheduleBuffer s now d).2.nextStartTime = s.nextStartTime + d := by
        simp [scheduleBuffer, max_eq_left h0]
      have hrest : ∀ i (hi : i < rest.length),
          (rest[i]).1 ≤ (scheduleBuffer s now d).2.nextStartTime
            + ((rest.take i).map Prod.snd).sum := by
        intro i hi
        have hh := h (i + 1) (by simpa using Nat.succ_lt_succ hi)
        simp only [List.getElem_cons_succ, List.take_succ_cons, List.map_cons,
          List.sum_cons] at hh
        rw [hs']
        linarith
      obtain ⟨ih1, ih2⟩ := ih (scheduleBuffer s now d).2 hrest
      constructor
      · have hL : (scheduleAll s ((now, d) :: rest)).1
            = (scheduleBuffer s now d).1 :: (scheduleAll (scheduleBuffer s now d).2 rest).1 := rfl
        rw [hL, hstart, ih1, List.length_cons, List.range_succ_eq_map, List.map_cons,
          List.map_map]
        simp only [List.cons.injEq]
        refine ⟨?_, ?_⟩
        · simp
        · apply List.map_congr_left
          intro i hi
          simp only [Function.comp_apply, List.take_succ_cons, List.map_cons,
            List.sum_cons, hs']
          ring
      · have hL : (scheduleAll s ((now, d) :: rest)).2
            = (scheduleAll (scheduleBuffer s now d).2 rest).2 := rfl
        rw [hL, ih2, hs']
        simp only [List.map_cons, List.sum_cons]
        ring

/-- C2 witness: three buffers of durations 0.5s, 0.3s, 0.2s arriving at
output-clock time 0 with cursor 0 give start times 0.0s, 0.5s, 0.8s and a
final cursor of 1.0s. -/
theorem c2_witness :
    (scheduleAll initState [((0:ℚ), (1:ℚ)/2), (0, 3/10), (0, 1/5)]).1 = [0, 1/2, 4/5]
    ∧ (scheduleAll initState [((0:ℚ), (1:ℚ)/2), (0, 3/10), (0, 1/5)]).2.nextStartTime = 1 := by
  have hhyp : ∀ i (hi : i < ([((0:ℚ), (1:ℚ)/2), (0, 3/10), (0, 1/5)]).length),
      (([((0:ℚ), (1:ℚ)/2), (0, 3/10), (0, 1/5)])[i]).1
        ≤ initState.nextStartTime
          + ((([((0:ℚ), (1:ℚ)/2), (0, 3/10), (0, 1/5)]).take i).map Prod.snd).sum := by
    intro i hi
    simp only [List.length_cons, List.length_nil] at hi
    interval_cases i <;> norm_num [initState]
  obtain ⟨h1, h2⟩ := c2_gapless_scheduling initState _ hhyp
  constructor
  · rw [h1]
    simp [initState, List.range_succ]
    norm_num
  · rw [h2]
    simp [initState]
    norm_num

/-- C3: the assigned start time is the maximum of the cursor and the output
clock, so a late-arriving buffer (clock past the cursor) starts exactly at
the clock's current time, and no buffer ever starts before the clock. -/
theorem c3_late_arrival (s : AnchorState) (now dur : ℚ) :
    (s.nextStartTime < now → (scheduleBuffer s now dur).1 = now)
    ∧ now ≤ (scheduleBuffer s now dur).1 := by
  constructor
  · intro hlt
    simp only [scheduleBuffer]
    exact max_eq_right hlt.le
  · simp only [scheduleBuffer]
    exact le_max_right _ _

/-- C3 witness: with cursor 0 and clock 1 the buffer starts at 1. -/
theorem c3_witness :
    initState.nextStartTime < 1 ∧ (scheduleBuffer initState 1 (1/2)).1 = 1 :=
  ⟨by norm_num [initState],
    (c3_late_arrival initState 1 (1/2)).1 (by norm_num [initState])⟩

/-- C4: processing any message carrying the interrupted flag (even one that
also carries audio) empties the ActiveSourceSet and resets the cursor to 0,
so a buffer scheduled afterwards starts at the output clock's current
time. -/
theorem c4_interruption (s : AnchorState) (now : ℚ) (msg : ServerMessage)
    (hstart : sourcesStarted s) (hint : msg.interrupted = true) :
    ∃ s', onmessage s now msg = .ok s' ∧ s'.sources = [] ∧ s'.nextStartTime = 0
      ∧ ∀ now' d, 0 ≤ now' → (scheduleBuffer s' now' d).1 = now' := by
  have hs1 : sourcesStarted (match msg.audioDur with
      | some d => (scheduleBuffer s now d).2
      | none => s) := by
    cases msg.audioDur with
    | some d => exact scheduleBuffer_sourcesStarted hstart now d
    | none => exact hstart
  refine ⟨{ (match msg.audioDur with
      | some d => (scheduleBuffer s now d).2
      | none => s) with sources := [], nextStartTime := 0 }, ?_, rfl, rfl, ?_⟩
  · simp only [onmessage, hint, if_true]
    rw [if_pos (List.all_eq_true.mpr hs1)]
  · intro now' d hnow
    simp only [scheduleBuffer]
    exact max_eq_right hnow

/-- C4 witness: an interrupted message carrying a 1-second buffer leaves an
empty source set and cursor 0, and a buffer arriving at clock time 2 then
starts at 2. -/
theorem c4_witness :
    ∃ s', onmessage initState 0 ⟨some 1, true⟩ = .ok s' ∧ s'.sources = []
      ∧ s'.nextStartTime = 0 ∧ (scheduleBuffer s' 2 1).1 = 2 := by
  obtain ⟨s', h1, h2, h3, h4⟩ :=
    c4_interruption initState 0 ⟨some 1, true⟩ (by intro src hsrc; simp [initState] at hsrc) rfl
  exact ⟨s', h1, h2, h3, h4 2 1 (by norm_num)⟩

/-- C5 counterexample: teardown from an active state whose cursor stands at
1 stops the tracks and clears the sources but leaves the cursor at 1 — the
PlaybackCursor is NOT reset by stopAnchor. -/
theorem c5_counterexample :
    stopAnchor ⟨true, false, 1, [], some ⟨[⟨false⟩]⟩⟩
      = .ok ⟨false, false, 1, [], some ⟨[⟨true⟩]⟩⟩
    ∧ (AnchorState.nextStartTime ⟨false, false, 1, [], some ⟨[⟨true⟩]⟩⟩) ≠ 0 := by
  constructor
  · simp [stopAnchor, stopTracks]
  · norm_num

/-- C5 amended: after teardown every active buffer is stopped and removed,
the capture stream's tracks are all stopped, and isActive is cleared, but
the PlaybackCursor nextStartTime keeps its previous value instead of being
reset; the remote close and error handlers are exactly this teardown. -/
theorem c5_teardown (s : AnchorState) (h : sourcesStarted s) :
    ∃ s', stopAnchor s = .ok s'
      ∧ oncloseHandler s = .ok s' ∧ onerrorHandler s = .ok s'
      ∧ s'.sources = [] ∧ s'.isActive = false
      ∧ s'.nextStartTime = s.nextStartTime
      ∧ ∀ st ∈ s'.stream, ∀ t ∈ st.tracks, t.stopped = true := by
  refine ⟨_, stopAnchor_ok h, stopAnchor_ok h, stopAnchor_ok h, rfl, rfl, rfl, ?_⟩
  intro st hst t ht
  cases hs : s.stream with
  | none => simp [hs] at hst
  | some st0 =>
      rw [hs] at hst
      simp only [Option.map_some', Option.mem_def, Option.some.injEq] at hst
      rw [← hst] at ht
      simp only [stopTracks, List.mem_map] at ht
      obtain ⟨t0, _, ht0⟩ := ht
      rw [← ht0]

/-- C5 witness: tearing down an active session with cursor 1 and one live
track yields an inactive state with no sources, the track stopped, and the
cursor still at 1. -/
theorem c5_witness :
    ∃ s', stopAnchor ⟨true, false, 1, [⟨0, 1, true⟩], some ⟨[⟨false⟩]⟩⟩ = .ok s'
      ∧ oncloseHandler ⟨true, false, 1, [⟨0, 1, true⟩], some ⟨[⟨false⟩]⟩⟩ = .ok s'
      ∧ onerrorHandler ⟨true, false, 1, [⟨0, 1, true⟩], some ⟨[⟨false⟩]⟩⟩ = .ok s'
      ∧ s'.sources = [] ∧ s'.isActive = false ∧ s'.nextStartTime = 1
      ∧ ∀ st ∈ s'.stream, ∀ t ∈ st.tracks, t.stopped = true :=
  c5_teardown ⟨true, false, 1, [⟨0, 1, true⟩], some ⟨[⟨false⟩]⟩⟩
    (by intro src hsrc; simp at hsrc; rw [hsrc])

/-- C6 counterexample: the CONNECTING state reached by pressing start is
reachable, stopAnchor maps it to itself without error, so calling it twice
leaves isConnecting set and the session is not IDLE. -/
theorem c6_counterexample :
    Reachable ⟨false, true, 0, [], none⟩
    ∧ stopAnchor ⟨false, true, 0, [], none⟩ = .ok ⟨false, true, 0, [], none⟩
    ∧ phase ⟨false, true, 0, [], none⟩ ≠ Phase.idle := by
  refine ⟨Reachable.press Reachable.init rfl, ?_, by decide⟩
  simp [stopAnchor]

/-- C6 amended: from any reachable state calling stopAnchor twice never
raises an error; after the second call isActive is false and the source set
is empty, and if the state was not CONNECTING (isConnecting clear) the
session is in IDLE — from a CONNECTING state the isConnecting flag
survives, so the session is not IDLE there. -/
theorem c6_idempotent_teardown (s : AnchorState) (hr : Reachable s) :
    ∃ s1 s2, stopAnchor s = .ok s1 ∧ stopAnchor s1 = .ok s2
      ∧ s2.isActive = false ∧ s2.sources = []
      ∧ (s.isConnecting = false → phase s2 = Phase.idle) := by
  have h1 := stopAnchor_ok (reachable_sourcesStarted hr)
  refine ⟨_, _, h1, stopAnchor_ok (by intro src hsrc; simp at hsrc), rfl, rfl, ?_⟩
  intro hc
  simp [phase, hc]

/-- C6 witness: from the freshly mounted (IDLE, hence not connecting) state
the double teardown succeeds and ends in IDLE. -/
theorem c6_witness :
    ∃ s1 s2, stopAnchor initState = .ok s1 ∧ stopAnchor s1 = .ok s2
      ∧ s2.isActive = false ∧ s2.sources = [] ∧ phase s2 = Phase.idle := by
  obtain ⟨s1, s2, h1, h2, h3, h4, h5⟩ := c6_idempotent_teardown initState Reachable.init
  exact ⟨s1, s2, h1, h2, h3, h4, h5 rfl⟩

/-- C9: a remote error delivered while the session is still CONNECTING is
handled by stopAnchor, which never clears isConnecting, so the session
stays in CONNECTING (start button disabled) instead of reaching IDLE as
specified — the code contradicts the specified state machine. -/
theorem c9_error_while_connecting_stays_connecting :
    Reachable ⟨false, true, 0, [], none⟩
    ∧ phase ⟨false, true, 0, [], none⟩ = Phase.connecting
    ∧ onerrorHandler ⟨false, true, 0, [], none⟩ = .ok ⟨false, true, 0, [], none⟩
    ∧ phase ⟨false, true, 0, [], none⟩ ≠ Phase.idle := by
  refine ⟨Reachable.press Reachable.init rfl, by decide, ?_, by decide⟩
  simp [onerrorHandler, stopAnchor]

/-- Successful-decode characterization: with an even underlying byte
length, a channel count between 1 and 32, and at least one full frame,
decodeAudioData returns the deinterleaved normalized buffer. -/
theorem decodeAudioData_eq_ok (data : Uint8View) (sr nc : Nat)
    (heven : data.buffer.length % 2 = 0) (hnc1 : 1 ≤ nc) (hnc2 : nc ≤ 32)
    (hfc : 1 ≤ (toInt16Pairs data.buffer).length / nc) :
    decodeAudioData data sr nc
      = .ok ⟨nc, (toInt16Pairs data.buffer).length / nc, sr,
          (List.range nc).map fun c =>
            (List.range ((toInt16Pairs data.buffer).length / nc)).map fun i =>
              (((toInt16Pairs data.buffer).getD (i * nc + c) 0 : Int) : ℚ) / 32768⟩ := by
  simp only [decodeAudioData]
  rw [if_neg (by omega), if_neg (by push_neg; exact ⟨by omega, by omega, by omega⟩)]

/-- Spec-side description of the outbound byte stream of claim C7: for each
sample, the value scaled by 32768, truncated, wrapped into an unsigned
16-bit two's complement word, and emitted low byte first. -/
def pcmBytesSpec (input : List ℚ) : List Nat :=
  input.flatMap fun x =>
    [wrap16 (truncQ (x * 32768)) % 256, wrap16 (truncQ (x * 32768)) / 256]

theorem bytesOfInt16_map_floatTo16 : ∀ input : List ℚ,
    bytesOfInt16 (input.map floatTo16Sample) = pcmBytesSpec input
  | [] => rfl
  | x :: rest => by
      have ih := bytesOfInt16_map_floatTo16 rest
      simp only [bytesOfInt16, pcmBytesSpec, List.map_cons, List.flatMap_cons,
        floatTo16Sample] at ih ⊢
      rw [ih]

/-- C7: the outbound encoder emits a radix-64 encoding of exactly 2 times n
bytes for n input samples; decoding the transport text recovers, for each
sample, the value scaled by 32768, truncated with two's-complement
wraparound and no clipping, stored little-endian. -/
theorem c7_outbound_encoder (input : List ℚ) :
    atob (encodeChunk input) = pcmBytesSpec input
    ∧ (pcmBytesSpec input).length = 2 * input.length := by
  have hlt : ∀ w ∈ int16ArrayOfInput input, w < 65536 := by
    intro w hw
    simp only [int16ArrayOfInput, List.mem_map] at hw
    obtain ⟨x, _, hx⟩ := hw
    rw [← hx]
    exact floatTo16Sample_lt x
  have h256 := bytesOfInt16_lt _ hlt
  constructor
  · rw [encodeChunk, encode, atob_btoa _ h256, int16ArrayOfInput,
      bytesOfInt16_map_floatTo16]
  · rw [← bytesOfInt16_map_floatTo16, bytesOfInt16_length, List.length_map]

/-- C8 counterexample: an odd-length byte buffer makes the Int16Array view
raise a RangeError instead of silently truncating, and the empty buffer —
well-formed by the claim's definition — makes createBuffer raise a
NotSupportedError instead of succeeding. -/
theorem c8_counterexample :
    decodeAudioData ⟨[0], 0, 1⟩ 24000 1 = .error .rangeError
    ∧ decodeAudioData ⟨[], 0, 0⟩ 24000 1 = .error .notSupportedError :=
  ⟨rfl, rfl⟩

/-- C8 amended: decode succeeds without error for any input with even byte
length holding at least one full frame (at least 2 times channelCount
bytes, channel count 1..32), silently truncating the frame count to
sampleCount / channelCount when the channel count does not divide the
sample count; an odd byte length raises a RangeError and a zero-frame
input raises a NotSupportedError. -/
theorem c8_decode_wellformed (bs : List Nat) (nc : Nat) (h1 : 1 ≤ nc) (h2 : nc ≤ 32)
    (heven : bs.length % 2 = 0) (hlen : 2 * nc ≤ bs.length) :
    ∃ buf, decodeAudioData ⟨bs, 0, bs.length⟩ 24000 nc = .ok buf
      ∧ buf.frameCount = bs.length / 2 / nc := by
  have hfc : 1 ≤ (toInt16Pairs bs).length / nc := by
    rw [toInt16Pairs_length, Nat.one_le_div_iff (by omega)]
    omega
  refine ⟨_, decodeAudioData_eq_ok ⟨bs, 0, bs.length⟩ 24000 nc heven h1 h2 hfc, ?_⟩
  simp [toInt16Pairs_length]

/-- C8 witness: six zero bytes with two channels decode without error to a
single truncated frame (3 samples do not divide evenly into 2 channels). -/
theorem c8_witness :
    ∃ buf, decodeAudioData ⟨[0, 0, 0, 0, 0, 0], 0, 6⟩ 24000 2 = .ok buf
      ∧ buf.frameCount = 1 := by
  obtain ⟨buf, hb, hf⟩ := c8_decode_wellformed [0, 0, 0, 0, 0, 0] 2
    (by norm_num) (by norm_num) (by norm_num) (by norm_num)
  exact ⟨buf, hb, by simpa using hf⟩

/-- C10: decodeAudioData reads the WHOLE underlying ArrayBuffer of its
argument view — the view's byteOffset and byteLength are ignored — so the
result equals decoding the full-span view and any successful decode has a
frame count derived from the full buffer's byte length. -/
theorem c10_whole_buffer (v : Uint8View) (sr nc : Nat)
    (_hview : v.byteOffset ≠ 0 ∨ v.byteLength < v.buffer.length) :
    decodeAudioData v sr nc = decodeAudioData ⟨v.buffer, 0, v.buffer.length⟩ sr nc
    ∧ ∀ buf, decodeAudioData v sr nc = .ok buf
        → buf.frameCount = v.buffer.length / 2 / nc := by
  refine ⟨rfl, ?_⟩
  intro buf hbuf
  simp only [decodeAudioData] at hbuf
  by_cases hev : v.buffer.length % 2 ≠ 0
  · rw [if_pos hev] at hbuf
    cases hbuf
  · rw [if_neg hev] at hbuf
    by_cases hc : nc = 0 ∨ 32 < nc ∨ (toInt16Pairs v.buffer).length / nc = 0
    · rw [if_pos hc] at hbuf
      cases hbuf
    · rw [if_neg hc] at hbuf
      cases hbuf
      simp [toInt16Pairs_length]

/-- C10 witness: a 2-byte view at offset 2 into a 4-byte buffer decodes
exactly like the full 4-byte buffer, producing 2 frames rather than the 1
frame the view's own bytes would give. -/
theorem c10_witness :
    ((⟨[0, 0, 0, 0], 2, 2⟩ : Uint8View).byteOffset ≠ 0
      ∨ (⟨[0, 0, 0, 0], 2, 2⟩ : Uint8View).byteLength
          < (⟨[0, 0, 0, 0], 2, 2⟩ : Uint8View).buffer.length)
    ∧ decodeAudioData ⟨[0, 0, 0, 0], 2, 2⟩ 24000 1
        = decodeAudioData ⟨[0, 0, 0, 0], 0, 4⟩ 24000 1
    ∧ ∃ buf, decodeAudioData ⟨[0, 0, 0, 0], 2, 2⟩ 24000 1 = .ok buf
        ∧ buf.frameCount = 2 := by
  have hv : (⟨[0, 0, 0, 0], 2, 2⟩ : Uint8View).byteOffset ≠ 0
      ∨ (⟨[0, 0, 0, 0], 2, 2⟩ : Uint8View).byteLength
          < (⟨[0, 0, 0, 0], 2, 2⟩ : Uint8View).buffer.length := Or.inl (by norm_num)
  have h := c10_whole_buffer ⟨[0, 0, 0, 0], 2, 2⟩ 24000 1 hv
  have hok := decodeAudioData_eq_ok ⟨[0, 0, 0, 0], 2, 2⟩ 24000 1
    (by norm_num) (by norm_num) (by norm_num) (by simp [toInt16Pairs, asInt16])
  exact ⟨hv, h.1, ⟨_, hok, (h.2 _ hok).trans (by norm_num)⟩⟩

/-- Quantization error of one truncated-and-rescaled sample. -/
theorem sample_roundtrip_err (x : ℚ) :
    |x - ((truncQ (x * 32768) : ℤ) : ℚ) / 32768| ≤ 1 / 32768 := by
  have hc := truncQ_close (x * 32768)
  have heq : x - ((truncQ (x * 32768) : ℤ) : ℚ) / 32768
      = (x * 32768 - ((truncQ (x * 32768) : ℤ) : ℚ)) / 32768 := by ring
  rw [heq, abs_div, abs_of_pos (by norm_num : (0:ℚ) < 32768)]
  gcongr

/-- Read-back of one stored sample recovers the truncated value for inputs
in the interval from -1 inclusive to 1 exclusive. -/
theorem asInt16_floatTo16 (x : ℚ) (h1 : -1 ≤ x) (h2 : x < 1) :
    asInt16 (floatTo16Sample x) = truncQ (x * 32768) := by
  obtain ⟨hl, hu⟩ := truncQ_range x h1 h2
  exact asInt16_wrap16 _ hl hu

/-- C1 amended (sample values in the interval from -1 inclusive to 1
exclusive; at exactly 1 the two's-complement wraparound gives -1 instead):
encoding a buffer of 1 to 100000 samples and decoding it back reproduces
every sample within 1/32768. -/
theorem c1_roundtrip (input : List ℚ) (hlen1 : 1 ≤ input.length)
    (hlen2 : input.length ≤ 100000)
    (hvals : ∀ x ∈ input, -1 ≤ x ∧ x < 1) :
    ∃ buf, decodeAudioData (decode (encodeChunk input)) 24000 1 = .ok buf
      ∧ buf.frameCount = input.length
      ∧ ∀ i, i < input.length →
          |input.getD i 0 - (buf.channels.getD 0 []).getD i 0| ≤ 1 / 32768 := by
  have hws : ∀ w ∈ int16ArrayOfInput input, w < 65536 := by
    intro w hw
    simp only [int16ArrayOfInput, List.mem_map] at hw
    obtain ⟨x, _, hx⟩ := hw
    rw [← hx]
    exact floatTo16Sample_lt x
  have h256 := bytesOfInt16_lt _ hws
  have hdec : decode (encodeChunk input)
      = ⟨bytesOfInt16 (int16ArrayOfInput input), 0,
          (bytesOfInt16 (int16ArrayOfInput input)).length⟩ := by
    simp only [decode, encodeChunk, encode, atob_btoa _ h256]
  have hlenb : (bytesOfInt16 (int16ArrayOfInput input)).length = 2 * input.length := by
    rw [bytesOfInt16_length, int16ArrayOfInput, List.length_map]
  have hpairs : toInt16Pairs (bytesOfInt16 (int16ArrayOfInput input))
      = (int16ArrayOfInput input).map asInt16 := toInt16Pairs_bytesOfInt16 _ hws
  have hplen : (toInt16Pairs (bytesOfInt16 (int16ArrayOfInput input))).length
      = input.length := by
    rw [hpairs, List.length_map, int16ArrayOfInput, List.length_map]
  have heven2 : (bytesOfInt16 (int16ArrayOfInput input)).length % 2 = 0 := by
    rw [hlenb]
    omega
  have hfc2 : 1 ≤ (toInt16Pairs (bytesOfInt16 (int16ArrayOfInput input))).length / 1 := by
    rw [Nat.div_one, hplen]
    omega
  rw [hdec, decodeAudioData_eq_ok _ 24000 1 heven2 (by omega) (by omega) hfc2]
  refine ⟨_, rfl, by simp [hplen], ?_⟩
  intro i hi
  have hfc : (toInt16Pairs (bytesOfInt16 (int16ArrayOfInput input))).length / 1
      = input.length := by rw [hplen, Nat.div_one]
  have hch : ((List.range 1).map fun c =>
      (List.range ((toInt16Pairs (bytesOfInt16 (int16ArrayOfInput input))).length / 1)).map
        fun j => (((toInt16Pairs (bytesOfInt16 (int16ArrayOfInput input))).getD
            (j * 1 + c) 0 : Int) : ℚ) / 32768).getD 0 []
      = (List.range input.length).map fun j =>
          (((toInt16Pairs (bytesOfInt16 (int16ArrayOfInput input))).getD j 0 : Int) : ℚ)
            / 32768 := by
    rw [hfc]
    simp
  rw [hch]
  have hj : ((List.range input.length).map fun j =>
      (((toInt16Pairs (bytesOfInt16 (int16ArrayOfInput input))).getD j 0 : Int) : ℚ)
        / 32768).getD i 0
      = (((toInt16Pairs (bytesOfInt16 (int16ArrayOfInput input))).getD i 0 : Int) : ℚ)
        / 32768 := by
    rw [List.getD_eq_getElem _ _ (by simpa using hi)]
    simp
  rw [hj, hpairs]
  have hv : ((int16ArrayOfInput input).map asInt16).getD i 0
      = asInt16 (floatTo16Sample (input.getD i 0)) := by
    rw [List.getD_eq_getElem _ _ (by simp [int16ArrayOfInput, hi]),
      List.getD_eq_getElem _ _ hi]
    simp [int16ArrayOfInput]
  rw [hv]
  obtain ⟨hx1, hx2⟩ := hvals (input.getD i 0)
    (by rw [List.getD_eq_getElem _ _ hi]; exact List.getElem_mem hi)
  rw [asInt16_floatTo16 _ hx1 hx2]
  exact sample_roundtrip_err _

/-- C1 witness: the single-sample buffer holding one half round-trips to a
decoded buffer whose sole sample is within 1/32768 of one half. -/
theorem c1_witness :
    ∃ buf, decodeAudioData (decode (encodeChunk [1/2])) 24000 1 = .ok buf
      ∧ buf.frameCount = 1
      ∧ |(1/2 : ℚ) - (buf.channels.getD 0 []).getD 0 0| ≤ 1 / 32768 := by
  obtain ⟨buf, h1, h2, h3⟩ := c1_roundtrip [1/2] (by norm_num) (by norm_num)
    (by intro x hx; simp at hx; rw [hx]; norm_num)
  exact ⟨buf, h1, h2, by simpa using h3 0 (by norm_num)⟩

/-- C1 counterexample: the in-range sample 1 encodes to the word 32768,
which wraps to -32768 and decodes to -1; the round-trip error is 2, far
above 1/32768. -/
theorem c1_counterexample :
    decodeAudioData (decode (encodeChunk [1])) 24000 1 = .ok ⟨1, 1, 24000, [[-1]]⟩
    ∧ ¬ |(1 : ℚ) - (-1 : ℚ)| ≤ 1 / 32768 := by
  constructor
  · have h1 : truncQ (32768:ℚ) = 32768 := by
      simp only [truncQ, if_pos (by norm_num : (0:ℚ) ≤ 32768)]
      norm_num
    have h2 : floatTo16Sample 1 = 32768 := by
      simp only [floatTo16Sample, wrap16]
      rw [show ((1:ℚ) * 32768) = (32768:ℚ) by norm_num, h1]
      decide
    have h3 : encodeChunk [1] = btoa [0, 128] := by
      simp [encodeChunk, encode, int16ArrayOfInput, bytesOfInt16, h2]
    have h4 : atob (btoa [0, 128]) = [0, 128] := by
      apply atob_btoa
      intro b hb
      simp at hb
      rcases hb with h | h <;> omega
    have h5 : decode (encodeChunk [1]) = ⟨[0, 128], 0, 2⟩ := by
      simp [decode, h3, h4]
    rw [h5, decodeAudioData_eq_ok _ 24000 1 (by norm_num) (by norm_num) (by norm_num)
      (by simp [toInt16Pairs])]
    have h6 : toInt16Pairs [0, 128] = [-32768] := by
      simp only [toInt16Pairs]
      norm_num [asInt16]
    rw [h6]
    simp [List.range_succ]
  · norm_num

end Shortz
